import Mathlib

/-!
# Route Geometry & Trip Simulation Engine — verification development

Shallow embedding of the polyline-tracker engine (`src/src/App.tsx` and
`src/lib/polylineUtils.ts`) together with proofs of the spec's testable
properties.

Conventions of the embedding:
* JavaScript numbers are modelled as rationals (`ℚ`); all inputs exercised by
  the claims stay well inside the range where double arithmetic is exact or
  the spec's tolerance absorbs the rounding.
* The encoded polyline text is modelled as its list of byte values
  (`List ℕ`); the empty string is `[]`.
* The polyline codec itself lives in the external `@googlemaps/polyline-codec`
  package (only its wrappers appear in `src`), so `encode`/`decode` are
  modelled from the spec, §4.1 — see their doc comments.
* `Math.sqrt` appears in the source only terminally (the returned segment
  distance) and inside monotone comparisons, so the computable model works
  with squared distances; `distanceToSegment` below is the real-valued
  source function and is related to the squared model by `Real.sqrt`.
-/

/-- A geographic coordinate, `lib/polylineUtils.ts` interface `LatLng`. -/
structure LatLng where
  lat : ℚ
  lng : ℚ
deriving DecidableEq, Repr, Inhabited

/-! ## Coordinate codec (modelled from the spec, §4.1) -/

/-- Modelled from the spec: the zig-zag transform of §4.1
(`(v << 1) ^ (v >> 31)`): non-negative `v` maps to `2·v`, negative `v` to
`2·|v| − 1`. The codec implementation is in the external
`@googlemaps/polyline-codec` package, not under `src/`. -/
def zigzag (v : ℤ) : ℕ :=
  if v < 0 then 2 * v.natAbs - 1 else 2 * v.natAbs

/-- Modelled from the spec: inverse of the zig-zag transform. -/
def unzigzag (n : ℕ) : ℤ :=
  if n % 2 = 1 then -(((n : ℤ) + 1) / 2) else (n : ℤ) / 2

/-- Modelled from the spec: little-endian 5-bit groups of a natural number
(the "base-32-style variable-length byte run" of §4.1). Never empty. -/
def chunksOf5 (n : ℕ) : List ℕ :=
  if h : n < 32 then [n]
  else (n % 32) :: chunksOf5 (n / 32)
termination_by n
decreasing_by
  exact Nat.div_lt_self (Nat.pos_of_ne_zero (by omega)) (by omega)

/-- Modelled from the spec: set the continuation bit (`0x20`) on all 5-bit
groups but the last and bias every byte by 63 to keep it printable. -/
def withContinuation : List ℕ → List ℕ
  | [] => []
  | [c] => [c + 63]
  | c :: c' :: rest => (c + 32 + 63) :: withContinuation (c' :: rest)

/-- Modelled from the spec: emit one signed scaled value as printable bytes. -/
def encodeValue (v : ℤ) : List ℕ :=
  withContinuation (chunksOf5 (zigzag v))

/-- Modelled from the spec: read one zig-zagged value from the byte stream,
returning it with the unconsumed rest; fails on a byte outside the printable
banded alphabet or when the stream ends inside a continuation run. -/
def decodeUnsigned : List ℕ → Option (ℕ × List ℕ)
  | [] => none
  | b :: rest =>
    if b < 63 ∨ 126 < b then none
    else
      let c := b - 63
      if c < 32 then some (c, rest)
      else
        match decodeUnsigned rest with
        | none => none
        | some (n, rest') => some ((c - 32) + 32 * n, rest')

/-- Modelled from the spec: read one signed scaled value. -/
def decodeValue (l : List ℕ) : Option (ℤ × List ℕ) :=
  match decodeUnsigned l with
  | none => none
  | some (n, rest) => some (unzigzag n, rest)

/-- Modelled from the spec: decode the whole stream into scaled integer
coordinate pairs, accumulating per-axis running totals. `fuel` bounds the
recursion by the length of the stream (each pair consumes at least one byte). -/
def decodePairsAux : ℕ → List ℕ → ℤ → ℤ → Option (List (ℤ × ℤ))
  | _, [], _, _ => some []
  | 0, _ :: _, _, _ => none
  | fuel + 1, l, plat, plng =>
    match decodeValue l with
    | none => none
    | some (dlat, rest) =>
      match decodeValue rest with
      | none => none
      | some (dlng, rest') =>
        match decodePairsAux fuel rest' (plat + dlat) (plng + dlng) with
        | none => none
        | some ps => some ((plat + dlat, plng + dlng) :: ps)

/-- Modelled from the spec: decode a byte stream to scaled integer pairs. -/
def decodeScaled (l : List ℕ) : Option (List (ℤ × ℤ)) :=
  decodePairsAux l.length l 0 0

/-- Modelled from the spec: encode scaled integer pairs as per-axis deltas
from the previous pair (the first pair is a delta from `(0, 0)`). -/
def encodeScaledAux : List (ℤ × ℤ) → ℤ → ℤ → List ℕ
  | [], _, _ => []
  | (la, ln) :: rest, plat, plng =>
    encodeValue (la - plat) ++ encodeValue (ln - plng) ++ encodeScaledAux rest la ln

/-- Modelled from the spec: round a coordinate value to the nearest 1e-5
degree and scale to an integer (precision 5). -/
def scaleCoord (q : ℚ) : ℤ := round (q * 100000)

/-- Modelled from the spec: `encode(coordinates, 5)` of
`@googlemaps/polyline-codec`. -/
def polylineEncode (coords : List (ℚ × ℚ)) : List ℕ :=
  encodeScaledAux (coords.map fun p => (scaleCoord p.1, scaleCoord p.2)) 0 0

/-- Modelled from the spec: `decode(text, 5)` of
`@googlemaps/polyline-codec`. -/
def polylineDecode (l : List ℕ) : Option (List (ℚ × ℚ)) :=
  (decodeScaled l).map (List.map fun p => ((p.1 : ℚ) / 100000, (p.2 : ℚ) / 100000))

/-- `decodePolyline` from `lib/polylineUtils.ts`: decode and repackage the
pairs as `LatLng` records. -/
def decodePolyline (encodedPolyline : List ℕ) : Option (List LatLng) :=
  (polylineDecode encodedPolyline).map (List.map fun p => ⟨p.1, p.2⟩)

/-- `encodePolyline` from `lib/polylineUtils.ts`: flatten the `LatLng`
records to pairs and encode. -/
def encodePolyline (points : List LatLng) : List ℕ :=
  polylineEncode (points.map fun p => (p.lat, p.lng))

/-- `calculateTimePerPoint` from `lib/polylineUtils.ts`: milliseconds per
point given the total duration in minutes. -/
def calculateTimePerPoint (totalDurationMinutes : ℚ) (numberOfPoints : ℕ) : ℚ :=
  totalDurationMinutes * 60 * 1000 / numberOfPoints

lemma unzigzag_zigzag (v : ℤ) : unzigzag (zigzag v) = v := by
  rcases lt_or_le v 0 with h | h
  · have hn : (v.natAbs : ℤ) = -v := Int.ofNat_natAbs_of_nonpos (le_of_lt h)
    have h1 : v.natAbs ≠ 0 := by omega
    simp only [zigzag, if_pos h, unzigzag]
    have h2 : (2 * v.natAbs - 1) % 2 = 1 := by omega
    rw [if_pos h2]
    have h3 : ((2 * v.natAbs - 1 : ℕ) : ℤ) + 1 = 2 * (v.natAbs : ℤ) := by omega
    rw [h3, Int.mul_ediv_cancel_left _ (by norm_num), hn]
    ring
  · have hn : (v.natAbs : ℤ) = v := Int.natAbs_of_nonneg h
    simp only [zigzag, if_neg (not_lt.mpr h), unzigzag]
    have h2 : (2 * v.natAbs) % 2 = 0 := by omega
    rw [if_neg (by omega)]
    have h3 : ((2 * v.natAbs : ℕ) : ℤ) = 2 * (v.natAbs : ℤ) := by omega
    rw [h3, Int.mul_ediv_cancel_left _ (by norm_num)]
    exact hn

lemma chunksOf5_ne_nil (n : ℕ) : chunksOf5 n ≠ [] := by
  rw [chunksOf5]
  split <;> simp

lemma decodeUnsigned_chunks (n : ℕ) (rest : List ℕ) :
    decodeUnsigned (withContinuation (chunksOf5 n) ++ rest) = some (n, rest) := by
  induction n using Nat.strong_induction_on with
  | _ n ih =>
    rw [chunksOf5]
    split
    · next h =>
      simp only [withContinuation, List.cons_append, List.nil_append, decodeUnsigned]
      rw [if_neg (by omega), if_pos (by omega), Nat.add_sub_cancel]
      rfl
    · next h =>
      obtain ⟨c, cs, hcs⟩ : ∃ c cs, chunksOf5 (n / 32) = c :: cs := by
        cases hc : chunksOf5 (n / 32) with
        | nil => exact absurd hc (chunksOf5_ne_nil _)
        | cons c cs => exact ⟨c, cs, rfl⟩
      rw [hcs]
      simp only [withContinuation, List.cons_append, decodeUnsigned]
      rw [if_neg (by omega), if_neg (by omega)]
      simp only [List.append_eq]
      rw [← hcs, ih (n / 32) (Nat.div_lt_self (by omega) (by omega))]
      simp only [Option.some.injEq, Prod.mk.injEq]
      exact ⟨by omega, trivial⟩

lemma decodeValue_encodeValue (v : ℤ) (rest : List ℕ) :
    decodeValue (encodeValue v ++ rest) = some (v, rest) := by
  rw [encodeValue, decodeValue, decodeUnsigned_chunks]
  simp [unzigzag_zigzag]

lemma encodeValue_ne_nil (v : ℤ) : encodeValue v ≠ [] := by
  rw [encodeValue]
  obtain ⟨c, cs, hcs⟩ : ∃ c cs, chunksOf5 (zigzag v) = c :: cs := by
    cases hc : chunksOf5 (zigzag v) with
    | nil => exact absurd hc (chunksOf5_ne_nil _)
    | cons c cs => exact ⟨c, cs, rfl⟩
  rw [hcs]
  cases cs <;> simp [withContinuation]

lemma length_encodeScaledAux (ps : List (ℤ × ℤ)) (plat plng : ℤ) :
    ps.length ≤ (encodeScaledAux ps plat plng).length := by
  induction ps generalizing plat plng with
  | nil => simp [encodeScaledAux]
  | cons p rest ih =>
    obtain ⟨la, ln⟩ := p
    have h1 : 0 < (encodeValue (la - plat)).length :=
      List.length_pos.mpr (encodeValue_ne_nil _)
    have h2 := ih la ln
    simp only [encodeScaledAux, List.length_append, List.length_cons]
    omega

lemma decodePairsAux_encode (ps : List (ℤ × ℤ)) :
    ∀ (fuel : ℕ) (plat plng : ℤ), ps.length ≤ fuel →
      decodePairsAux fuel (encodeScaledAux ps plat plng) plat plng = some ps := by
  induction ps with
  | nil =>
    intro fuel plat plng _
    cases fuel <;> simp [encodeScaledAux, decodePairsAux]
  | cons p rest ih =>
    intro fuel plat plng hf
    obtain ⟨la, ln⟩ := p
    cases fuel with
    | zero => simp at hf
    | succ f =>
      obtain ⟨b, tl, hbt⟩ := List.exists_cons_of_ne_nil (encodeValue_ne_nil (la - plat))
      have hES : encodeScaledAux ((la, ln) :: rest) plat plng
          = b :: (tl ++ (encodeValue (ln - plng) ++ encodeScaledAux rest la ln)) := by
        simp [encodeScaledAux, hbt]
      have h1 : b :: (tl ++ (encodeValue (ln - plng) ++ encodeScaledAux rest la ln))
          = encodeValue (la - plat) ++ (encodeValue (ln - plng) ++ encodeScaledAux rest la ln) := by
        rw [hbt]; rfl
      have hla : plat + (la - plat) = la := by ring
      have hln : plng + (ln - plng) = ln := by ring
      have hrest : rest.length ≤ f := by simp at hf; omega
      rw [hES]
      simp only [decodePairsAux, h1, decodeValue_encodeValue, hla, hln, ih f la ln hrest]

lemma decodeScaled_encode (ps : List (ℤ × ℤ)) :
    decodeScaled (encodeScaledAux ps 0 0) = some ps :=
  decodePairsAux_encode ps _ 0 0 (length_encodeScaledAux ps 0 0)

lemma polylineDecode_polylineEncode (coords : List (ℚ × ℚ)) :
    polylineDecode (polylineEncode coords)
      = some (coords.map fun p =>
          ((scaleCoord p.1 : ℚ) / 100000, (scaleCoord p.2 : ℚ) / 100000)) := by
  rw [polylineEncode, polylineDecode, decodeScaled_encode]
  simp [List.map_map, Function.comp]

lemma decodePolyline_encodePolyline (S : List LatLng) :
    decodePolyline (encodePolyline S)
      = some (S.map fun p =>
          ⟨(scaleCoord p.lat : ℚ) / 100000, (scaleCoord p.lng : ℚ) / 100000⟩) := by
  rw [encodePolyline, decodePolyline, polylineDecode_polylineEncode]
  simp [List.map_map, Function.comp]

lemma scaleCoord_err (q : ℚ) : |q - (scaleCoord q : ℚ) / 100000| ≤ 1 / 200000 := by
  rw [scaleCoord]
  have h := abs_sub_round (q * 100000)
  have heq : q - (round (q * 100000) : ℚ) / 100000
      = (q * 100000 - round (q * 100000)) / 100000 := by ring
  rw [heq, abs_div, abs_of_pos (by norm_num : (0 : ℚ) < 100000)]
  linarith

lemma mem_zip_map_self {α β : Type} (f : α → β) (S : List α) :
    ∀ pq ∈ S.zip (S.map f), pq.2 = f pq.1 := by
  induction S with
  | nil => simp
  | cons a t ih =>
    intro pq hpq
    rw [List.map_cons, List.zip_cons_cons, List.mem_cons] at hpq
    rcases hpq with h | h
    · rw [h]
    · exact ih pq h

/-- C1: for every finite coordinate sequence `S`, decoding the encoding of
`S` succeeds and yields a sequence of the same length whose coordinates each
differ from the originals by at most `0.5e-5` degrees per axis; moreover the
empty sequence encodes to the empty string and the empty string decodes to
the empty sequence. -/
theorem C1_codec_roundtrip (S : List LatLng) :
    (∃ S', decodePolyline (encodePolyline S) = some S'
      ∧ S'.length = S.length
      ∧ ∀ pq ∈ S.zip S',
          |pq.1.lat - pq.2.lat| ≤ 1 / 200000 ∧ |pq.1.lng - pq.2.lng| ≤ 1 / 200000)
    ∧ encodePolyline ([] : List LatLng) = []
    ∧ decodePolyline [] = some [] := by
  refine ⟨⟨_, decodePolyline_encodePolyline S, by simp, ?_⟩, rfl, rfl⟩
  intro pq hpq
  have h2 := mem_zip_map_self
    (fun p : LatLng => (⟨(scaleCoord p.lat : ℚ) / 100000, (scaleCoord p.lng : ℚ) / 100000⟩ : LatLng))
    S pq hpq
  rw [h2]
  exact ⟨scaleCoord_err _, scaleCoord_err _⟩

/-! ## Segment geometry (`src/src/App.tsx`, `distanceToSegment`) -/

/-- `distanceToSegment` from `src/src/App.tsx` up to its final `Math.sqrt`:
the squared planar distance from `point` to the segment `segStart`–`segEnd`.
The square is kept because `ℝ` admits no computable square root; the source's
return value is `Real.sqrt` of this (see `distanceToSegment`), and every
comparison the source performs on distances is determined by the squares
since `Math.sqrt` is strictly monotone on non-negatives. -/
def distanceToSegmentSq (point segStart segEnd : LatLng) : ℚ :=
  let x := point.lng
  let y := point.lat
  let x1 := segStart.lng
  let y1 := segStart.lat
  let x2 := segEnd.lng
  let y2 := segEnd.lat
  let A := x - x1
  let B := y - y1
  let C := x2 - x1
  let D := y2 - y1
  let dot := A * C + B * D
  let lenSq := C * C + D * D
  let param := if lenSq ≠ 0 then dot / lenSq else -1
  let xx := if param < 0 then x1 else if 1 < param then x2 else x1 + param * C
  let yy := if param < 0 then y1 else if 1 < param then y2 else y1 + param * D
  let dx := x - xx
  let dy := y - yy
  dx * dx + dy * dy

/-- The real-valued distance returned by the source's `distanceToSegment`. -/
noncomputable def distanceToSegment (point segStart segEnd : LatLng) : ℝ :=
  Real.sqrt (distanceToSegmentSq point segStart segEnd)

lemma distanceToSegmentSq_nonneg (p a b : LatLng) : 0 ≤ distanceToSegmentSq p a b := by
  dsimp only [distanceToSegmentSq]
  exact add_nonneg (mul_self_nonneg _) (mul_self_nonneg _)

/-- Comparing the source's square-rooted distances is the same as comparing
the squared distances: the segment chosen by the insertion scan below is
therefore the one the source chooses. -/
lemma distanceToSegment_lt_iff (p a b p' a' b' : LatLng) :
    distanceToSegment p a b < distanceToSegment p' a' b' ↔
      distanceToSegmentSq p a b < distanceToSegmentSq p' a' b' := by
  rw [distanceToSegment, distanceToSegment,
    Real.sqrt_lt_sqrt_iff (by exact_mod_cast distanceToSegmentSq_nonneg p a b)]
  exact_mod_cast Iff.rfl

/-- The nearest point on a segment in the spec's words (§4.2): projection
parameter `t = dot(p−a, b−a) / |b−a|²`, `t` treated as 0 for a degenerate
segment, clamped to `[0, 1]`; nearest point `a + t·(b−a)`. -/
def nearestPointOnSegmentSpec (p a b : LatLng) : LatLng :=
  let lenSq := (b.lng - a.lng) * (b.lng - a.lng) + (b.lat - a.lat) * (b.lat - a.lat)
  let t0 : ℚ := if lenSq = 0 then 0
    else ((p.lng - a.lng) * (b.lng - a.lng) + (p.lat - a.lat) * (b.lat - a.lat)) / lenSq
  let t := if t0 < 0 then 0 else if 1 < t0 then 1 else t0
  ⟨a.lat + t * (b.lat - a.lat), a.lng + t * (b.lng - a.lng)⟩

/-- C6: the source's segment distance is the planar Euclidean distance to the
spec's clamped projection point `a + t·(b−a)` with `t = dot(p−a, b−a)/|b−a|²`
treated as 0 on a degenerate segment; in particular for `a=(0,0)`, `b=(0,10)`,
`p=(5,−5)` the nearest point is `a` and the distance is `√50`. -/
theorem C6_nearest_point_on_segment (p a b : LatLng) :
    distanceToSegmentSq p a b
        = (p.lat - (nearestPointOnSegmentSpec p a b).lat) ^ 2
          + (p.lng - (nearestPointOnSegmentSpec p a b).lng) ^ 2
    ∧ distanceToSegment p a b
        = Real.sqrt (((p.lat - (nearestPointOnSegmentSpec p a b).lat) ^ 2
          + (p.lng - (nearestPointOnSegmentSpec p a b).lng) ^ 2 : ℚ))
    ∧ nearestPointOnSegmentSpec ⟨5, -5⟩ ⟨0, 0⟩ ⟨0, 10⟩ = ⟨0, 0⟩
    ∧ distanceToSegment ⟨5, -5⟩ ⟨0, 0⟩ ⟨0, 10⟩ = Real.sqrt 50 := by
  have key : ∀ p' a' b' : LatLng, distanceToSegmentSq p' a' b'
      = (p'.lat - (nearestPointOnSegmentSpec p' a' b').lat) ^ 2
        + (p'.lng - (nearestPointOnSegmentSpec p' a' b').lng) ^ 2 := by
    intro p' a' b'
    dsimp only [distanceToSegmentSq, nearestPointOnSegmentSpec]
    set A := p'.lng - a'.lng with hA
    set B := p'.lat - a'.lat with hB
    set C := b'.lng - a'.lng with hC
    set D := b'.lat - a'.lat with hD
    by_cases hlen : C * C + D * D = 0
    · rw [if_neg (not_not_intro hlen), if_pos hlen]
      norm_num
      ring
    · rw [if_pos hlen, if_neg hlen]
      set t0 : ℚ := (A * C + B * D) / (C * C + D * D) with ht0
      by_cases h0 : t0 < 0
      · rw [if_pos h0, if_pos h0, if_pos h0]
        ring
      · rw [if_neg h0, if_neg h0, if_neg h0]
        by_cases h1 : 1 < t0
        · rw [if_pos h1, if_pos h1, if_pos h1]
          ring
        · rw [if_neg h1, if_neg h1, if_neg h1]
          ring
  refine ⟨key p a b, ?_, ?_, ?_⟩
  · rw [distanceToSegment, key p a b]
  · norm_num [nearestPointOnSegmentSpec]
  · have h50 : distanceToSegmentSq ⟨5, -5⟩ ⟨0, 0⟩ ⟨0, 10⟩ = 50 := by
      norm_num [distanceToSegmentSq]
    rw [distanceToSegment, h50]
    norm_num

/-! ## Route editor (`src/src/App.tsx`, `handleMapClick`) -/

/-- The four edit sub-modes of the editor (`editModeType` state). -/
inductive EditModeType
  | add
  | select
  | insert
  | move
deriving DecidableEq, Repr

/-- `EditableRoute` from `src/src/App.tsx`: the route being authored. -/
structure EditableRoute where
  routeId : Option ℕ
  routeName : String
  points : List LatLng
  isNewRoute : Bool
deriving DecidableEq, Repr

/-- Squared segment distance of an indexed consecutive pair. -/
def pairDistSq (click : LatLng) (pr : LatLng × LatLng) : ℚ :=
  distanceToSegmentSq click pr.1 pr.2

/-- The `for` loop of `handleMapClick`'s insert branch: scans the indexed
consecutive pairs carrying `(minDistance, insertIndex)`; `none` models the
initial `Infinity`, and distances are compared through their squares (see
`distanceToSegment_lt_iff`). -/
def insertScan (click : LatLng) : List (ℕ × LatLng × LatLng) → Option ℚ × Int → Option ℚ × Int
  | [], acc => acc
  | (i, p1, p2) :: rest, (minD, idx) =>
    let d := distanceToSegmentSq click p1 p2
    let acc' : Option ℚ × Int := match minD with
      | none => (some d, (i : Int) + 1)
      | some m => if d < m then (some d, (i : Int) + 1) else (some m, idx)
    insertScan click rest acc'

/-- The indexed consecutive pairs `(i, points[i], points[i+1])` the loop
ranges over. -/
def segmentPairs (points : List LatLng) : List (ℕ × LatLng × LatLng) :=
  (points.zip points.tail).enum

/-- `handleMapClick` from `src/src/App.tsx`: in insert mode with at least two
points, insert the raw click at `insertIndex`; otherwise append the click to
the end. Returns the new editable route and the highlight index it sets. -/
def handleMapClick (editModeType : EditModeType) (editableRoute : Option EditableRoute)
    (lat lng : ℚ) : Option EditableRoute × Option ℕ :=
  match editableRoute with
  | none => (none, none)
  | some er =>
    if editModeType = EditModeType.insert ∧ 2 ≤ er.points.length then
      match insertScan ⟨lat, lng⟩ (segmentPairs er.points) (none, -1) with
      | (_, insertIndex) =>
        if insertIndex ≠ -1 then
          (some { er with points := er.points.take insertIndex.toNat
              ++ ⟨lat, lng⟩ :: er.points.drop insertIndex.toNat },
           some insertIndex.toNat)
        else (some er, none)
    else
      (some { er with points := er.points ++ [⟨lat, lng⟩] }, none)

lemma insertScan_some (click : LatLng) (ps : List (LatLng × LatLng)) :
    ∀ (k : ℕ) (m : ℚ) (idx : Int),
      ((∀ j, j < ps.length → m ≤ pairDistSq click (ps.getD j default)) →
        insertScan click (List.enumFrom k ps) (some m, idx) = (some m, idx))
      ∧ ((∃ j, j < ps.length ∧ pairDistSq click (ps.getD j default) < m) →
        ∃ r, r < ps.length
          ∧ pairDistSq click (ps.getD r default) < m
          ∧ (∀ j, j < ps.length →
              pairDistSq click (ps.getD r default) ≤ pairDistSq click (ps.getD j default))
          ∧ (∀ j, j < r →
              pairDistSq click (ps.getD r default) < pairDistSq click (ps.getD j default))
          ∧ insertScan click (List.enumFrom k ps) (some m, idx)
              = (some (pairDistSq click (ps.getD r default)), (k : Int) + r + 1)) := by
  induction ps with
  | nil =>
    intro k m idx
    refine ⟨fun _ => rfl, fun h => ?_⟩
    obtain ⟨j, hj, _⟩ := h
    simp at hj
  | cons q qs ih =>
    intro k m idx
    obtain ⟨q1, q2⟩ := q
    have hq : pairDistSq click (((q1, q2) :: qs).getD 0 default) = distanceToSegmentSq click q1 q2 := by
      simp [pairDistSq]
    constructor
    · intro hall
      have hd : m ≤ distanceToSegmentSq click q1 q2 := by
        rw [← hq]; exact hall 0 (by simp)
      simp only [List.enumFrom, insertScan]
      rw [if_neg (not_lt.mpr hd)]
      apply (ih (k + 1) m idx).1
      intro j hj
      have := hall (j + 1) (by simpa using Nat.succ_lt_succ hj)
      simpa using this
    · intro hex
      simp only [List.enumFrom, insertScan]
      by_cases hd : distanceToSegmentSq click q1 q2 < m
      · rw [if_pos hd]
        by_cases hex2 : ∃ j, j < qs.length
            ∧ pairDistSq click (qs.getD j default) < distanceToSegmentSq click q1 q2
        · obtain ⟨r', hr1, hr2, hr3, hr4, hr5⟩ :=
            (ih (k + 1) (distanceToSegmentSq click q1 q2) ((k : Int) + 1)).2 hex2
          refine ⟨r' + 1, by simpa using Nat.succ_lt_succ hr1, ?_, ?_, ?_, ?_⟩
          · simpa using lt_trans hr2 hd
          · intro j hj
            simp only [List.length_cons] at hj
            cases j with
            | zero => simp only [List.getD_cons_zero]
                      exact le_of_lt hr2
            | succ j' =>
              simp only [List.getD_cons_succ]
              exact hr3 j' (by omega)
          · intro j hj
            cases j with
            | zero => simp only [List.getD_cons_zero]
                      exact hr2
            | succ j' =>
              simp only [List.getD_cons_succ]
              exact hr4 j' (by omega)
          · simp only [List.getD_cons_succ]
            rw [hr5]
            congr 1
            push_cast
            ring
        · push_neg at hex2
          have hres := (ih (k + 1) (distanceToSegmentSq click q1 q2) ((k : Int) + 1)).1 hex2
          refine ⟨0, by simp, ?_, ?_, ?_, ?_⟩
          · simpa [hq] using hd
          · intro j hj
            simp only [List.length_cons] at hj
            cases j with
            | zero => simp
            | succ j' =>
              simp only [List.getD_cons_succ, List.getD_cons_zero]
              exact hex2 j' (by omega)
          · intro j hj
            omega
          · rw [hres]
            simp [pairDistSq]
      · rw [if_neg hd]
        have hex' : ∃ j, j < qs.length ∧ pairDistSq click (qs.getD j default) < m := by
          obtain ⟨j, hj, hjlt⟩ := hex
          simp only [List.length_cons] at hj
          cases j with
          | zero =>
            rw [hq] at hjlt
            exact absurd hjlt hd
          | succ j' =>
            refine ⟨j', by omega, ?_⟩
            simpa using hjlt
        obtain ⟨r', hr1, hr2, hr3, hr4, hr5⟩ := (ih (k + 1) m idx).2 hex'
        refine ⟨r' + 1, by simpa using Nat.succ_lt_succ hr1, ?_, ?_, ?_, ?_⟩
        · simpa using hr2
        · intro j hj
          simp only [List.length_cons] at hj
          cases j with
          | zero =>
            simp only [List.getD_cons_zero, pairDistSq]
            exact le_trans (le_of_lt hr2) (not_lt.mp hd)
          | succ j' =>
            simp only [List.getD_cons_succ]
            exact hr3 j' (by omega)
        · intro j hj
          cases j with
          | zero =>
            simp only [List.getD_cons_zero, pairDistSq]
            exact lt_of_lt_of_le hr2 (not_lt.mp hd)
          | succ j' =>
            simp only [List.getD_cons_succ]
            exact hr4 j' (by omega)
        · simp only [List.getD_cons_succ]
          rw [hr5]
          congr 1
          push_cast
          ring

lemma insertScan_none (click : LatLng) (q : LatLng × LatLng) (qs : List (LatLng × LatLng)) :
    ∀ (k : ℕ) (idx0 : Int), ∃ r, r < (q :: qs).length
      ∧ (∀ j, j < (q :: qs).length →
          pairDistSq click ((q :: qs).getD r default) ≤ pairDistSq click ((q :: qs).getD j default))
      ∧ (∀ j, j < r →
          pairDistSq click ((q :: qs).getD r default) < pairDistSq click ((q :: qs).getD j default))
      ∧ insertScan click (List.enumFrom k (q :: qs)) (none, idx0)
          = (some (pairDistSq click ((q :: qs).getD r default)), (k : Int) + r + 1) := by
  intro k idx0
  obtain ⟨q1, q2⟩ := q
  have hstep : insertScan click (List.enumFrom k ((q1, q2) :: qs)) (none, idx0)
      = insertScan click (List.enumFrom (k + 1) qs)
          (some (distanceToSegmentSq click q1 q2), (k : Int) + 1) := by
    simp only [List.enumFrom, insertScan]
  by_cases hex : ∃ j, j < qs.length
      ∧ pairDistSq click (qs.getD j default) < distanceToSegmentSq click q1 q2
  · obtain ⟨r', hr1, hr2, hr3, hr4, hr5⟩ :=
      (insertScan_some click qs (k + 1) (distanceToSegmentSq click q1 q2) ((k : Int) + 1)).2 hex
    refine ⟨r' + 1, by simp only [List.length_cons]; omega, ?_, ?_, ?_⟩
    · intro j hj
      simp only [List.length_cons] at hj
      cases j with
      | zero =>
        simp only [List.getD_cons_succ, List.getD_cons_zero, pairDistSq]
        exact le_of_lt hr2
      | succ j' =>
        simp only [List.getD_cons_succ]
        exact hr3 j' (by omega)
    · intro j hj
      cases j with
      | zero =>
        simp only [List.getD_cons_succ, List.getD_cons_zero, pairDistSq]
        exact hr2
      | succ j' =>
        simp only [List.getD_cons_succ]
        exact hr4 j' (by omega)
    · simp only [List.getD_cons_succ]
      rw [hstep, hr5]
      congr 1
      push_cast
      ring
  · push_neg at hex
    have hres := (insertScan_some click qs (k + 1)
      (distanceToSegmentSq click q1 q2) ((k : Int) + 1)).1 hex
    refine ⟨0, by simp, ?_, ?_, ?_⟩
    · intro j hj
      simp only [List.length_cons] at hj
      cases j with
      | zero => simp
      | succ j' =>
        simp only [List.getD_cons_succ, List.getD_cons_zero, pairDistSq]
        exact hex j' (by omega)
    · intro j hj
      omega
    · rw [hstep, hres]
      simp [pairDistSq]

lemma zip_tail_length (points : List LatLng) :
    (points.zip points.tail).length = points.length - 1 := by
  rw [List.length_zip, List.length_tail]
  omega

lemma zip_tail_getD (points : List LatLng) :
    ∀ j, j + 1 < points.length →
      (points.zip points.tail).getD j default
        = (points.getD j default, points.getD (j + 1) default) := by
  induction points with
  | nil => intro j hj; simp at hj
  | cons a t ih =>
    intro j hj
    cases t with
    | nil => simp only [List.length_cons, List.length_nil] at hj; omega
    | cons b t' =>
      cases j with
      | zero => simp
      | succ j' =>
        simp only [List.length_cons] at hj
        have := ih j' (by simp only [List.length_cons]; omega)
        simpa using this

/-- C4 counterexample: in insert mode with a single point, a map click does
not leave the sequence unchanged — the click is appended. -/
theorem C4_insert_few_points_not_noop :
    (handleMapClick EditModeType.insert (some ⟨none, "r", [⟨0, 0⟩], true⟩) 1 5).1
        = some ⟨none, "r", [⟨0, 0⟩, ⟨1, 5⟩], true⟩
    ∧ (handleMapClick EditModeType.insert (some ⟨none, "r", [⟨0, 0⟩], true⟩) 1 5).1
        ≠ some ⟨none, "r", [⟨0, 0⟩], true⟩ := by
  have h1 : (handleMapClick EditModeType.insert (some ⟨none, "r", [⟨0, 0⟩], true⟩) 1 5).1
      = some ⟨none, "r", [⟨0, 0⟩, ⟨1, 5⟩], true⟩ := rfl
  refine ⟨h1, ?_⟩
  rw [h1]
  intro h
  have hp := congrArg EditableRoute.points (Option.some.inj h)
  simp at hp

/-- C4 (amended): with fewer than 2 points, the insert-mode click is not a
no-op; `handleMapClick` falls through to the add branch and appends the raw
click point to the end of the sequence. -/
theorem C4_insert_few_points_appends (er : EditableRoute) (lat lng : ℚ)
    (h : er.points.length < 2) :
    handleMapClick EditModeType.insert (some er) lat lng
      = (some { er with points := er.points ++ [⟨lat, lng⟩] }, none) := by
  simp only [handleMapClick]
  rw [if_neg (by rintro ⟨-, hle⟩; omega)]

theorem C4_insert_few_points_appends_witness :
    (([⟨0, 0⟩] : List LatLng).length < 2)
    ∧ handleMapClick EditModeType.insert (some ⟨none, "r", [⟨0, 0⟩], true⟩) 1 5
        = (some ⟨none, "r", [⟨0, 0⟩, ⟨1, 5⟩], true⟩, none) := by
  refine ⟨by norm_num, ?_⟩
  rw [C4_insert_few_points_appends _ 1 5 (by norm_num)]
  rfl

lemma handleMapClick_insert_spec (er : EditableRoute) (lat lng : ℚ)
    (h2 : 2 ≤ er.points.length) :
    ∃ i : ℕ, i + 1 < er.points.length
      ∧ (∀ j, j + 1 < er.points.length →
          distanceToSegmentSq ⟨lat, lng⟩ (er.points.getD i default) (er.points.getD (i + 1) default)
            ≤ distanceToSegmentSq ⟨lat, lng⟩ (er.points.getD j default) (er.points.getD (j + 1) default))
      ∧ (∀ j, j < i →
          distanceToSegmentSq ⟨lat, lng⟩ (er.points.getD i default) (er.points.getD (i + 1) default)
            < distanceToSegmentSq ⟨lat, lng⟩ (er.points.getD j default) (er.points.getD (j + 1) default))
      ∧ handleMapClick EditModeType.insert (some er) lat lng
          = (some { er with points := er.points.take (i + 1)
              ++ ⟨lat, lng⟩ :: er.points.drop (i + 1) }, some (i + 1)) := by
  have hlen : (er.points.zip er.points.tail).length = er.points.length - 1 :=
    zip_tail_length er.points
  have hne : er.points.zip er.points.tail ≠ [] := by
    intro h
    rw [h] at hlen
    simp at hlen
    omega
  obtain ⟨q, qs, hqqs⟩ := List.exists_cons_of_ne_nil hne
  obtain ⟨r, hr1, hr2, hr3, hscan⟩ := insertScan_none ⟨lat, lng⟩ q qs 0 (-1)
  rw [← hqqs] at hr1 hr2 hr3 hscan
  have hrlen : r + 1 < er.points.length := by rw [hlen] at hr1; omega
  refine ⟨r, hrlen, ?_, ?_, ?_⟩
  · intro j hj
    have hle := hr2 j (by rw [hlen]; omega)
    rw [zip_tail_getD er.points r hrlen, zip_tail_getD er.points j hj] at hle
    simpa [pairDistSq] using hle
  · intro j hj
    have hjlen : j + 1 < er.points.length := by omega
    have hlt := hr3 j hj
    rw [zip_tail_getD er.points r hrlen, zip_tail_getD er.points j hjlen] at hlt
    simpa [pairDistSq] using hlt
  · have hsp : segmentPairs er.points
        = List.enumFrom 0 (er.points.zip er.points.tail) := rfl
    simp only [handleMapClick]
    rw [if_pos (by exact ⟨by trivial, h2⟩)]
    rw [hsp, hscan]
    dsimp only
    have hne1 : ¬(((0 : ℕ) : ℤ) + (r : ℤ) + 1 = -1) := by omega
    rw [if_pos hne1]
    have htn : (((0 : ℕ) : ℤ) + (r : ℤ) + 1).toNat = r + 1 := by omega
    rw [htn]

/-- C5: with at least 2 points, the insert-mode click computes the distance
to every consecutive segment, selects the minimum-distance segment with ties
broken by the lowest index, and inserts the raw click point at index `i+1`;
on `[(0,0),(0,10),(0,20)]` with click `(1,5)` the result is
`[(0,0),(1,5),(0,10),(0,20)]`. -/
theorem C5_insert_near_segment (er : EditableRoute) (lat lng : ℚ)
    (h2 : 2 ≤ er.points.length) :
    (∃ i : ℕ, i + 1 < er.points.length
      ∧ (∀ j, j + 1 < er.points.length →
          distanceToSegmentSq ⟨lat, lng⟩ (er.points.getD i default) (er.points.getD (i + 1) default)
            ≤ distanceToSegmentSq ⟨lat, lng⟩ (er.points.getD j default) (er.points.getD (j + 1) default))
      ∧ (∀ j, j < i →
          distanceToSegmentSq ⟨lat, lng⟩ (er.points.getD i default) (er.points.getD (i + 1) default)
            < distanceToSegmentSq ⟨lat, lng⟩ (er.points.getD j default) (er.points.getD (j + 1) default))
      ∧ handleMapClick EditModeType.insert (some er) lat lng
          = (some { er with points := er.points.take (i + 1)
              ++ ⟨lat, lng⟩ :: er.points.drop (i + 1) }, some (i + 1)))
    ∧ handleMapClick EditModeType.insert
        (some ⟨none, "r", [⟨0, 0⟩, ⟨0, 10⟩, ⟨0, 20⟩], true⟩) 1 5
        = (some ⟨none, "r", [⟨0, 0⟩, ⟨1, 5⟩, ⟨0, 10⟩, ⟨0, 20⟩], true⟩, some 1) := by
  refine ⟨handleMapClick_insert_spec er lat lng h2, ?_⟩
  obtain ⟨i, hi1, hmin, hstrict, heq⟩ := handleMapClick_insert_spec
    ⟨none, "r", [⟨0, 0⟩, ⟨0, 10⟩, ⟨0, 20⟩], true⟩ 1 5 (by norm_num)
  have d0 : distanceToSegmentSq ⟨1, 5⟩ ⟨0, 0⟩ ⟨0, 10⟩ = 1 := by
    norm_num [distanceToSegmentSq]
  have d1 : distanceToSegmentSq ⟨1, 5⟩ ⟨0, 10⟩ ⟨0, 20⟩ = 26 := by
    norm_num [distanceToSegmentSq]
  have e0 : ([⟨0, 0⟩, ⟨0, 10⟩, ⟨0, 20⟩] : List LatLng).getD 0 default = ⟨0, 0⟩ := rfl
  have e1 : ([⟨0, 0⟩, ⟨0, 10⟩, ⟨0, 20⟩] : List LatLng).getD 1 default = ⟨0, 10⟩ := rfl
  have e2 : ([⟨0, 0⟩, ⟨0, 10⟩, ⟨0, 20⟩] : List LatLng).getD 2 default = ⟨0, 20⟩ := rfl
  have hi1' : i + 1 < 3 := by simpa using hi1
  have hi0 : i = 0 := by
    rcases (by omega : i = 0 ∨ i = 1) with h | h
    · exact h
    · exfalso
      have hs := hstrict 0 (by omega)
      rw [h] at hs
      rw [e0, e1, e2, d0, d1] at hs
      norm_num at hs
  rw [hi0] at heq
  rw [heq]
  rfl

theorem C5_insert_near_segment_witness : handleMapClick EditModeType.insert
    (some ⟨none, "r", [⟨0, 0⟩, ⟨0, 10⟩, ⟨0, 20⟩], true⟩) 1 5
    = (some ⟨none, "r", [⟨0, 0⟩, ⟨1, 5⟩, ⟨0, 10⟩, ⟨0, 20⟩], true⟩, some 1) :=
  (C5_insert_near_segment ⟨none, "r", [⟨0, 0⟩, ⟨0, 10⟩, ⟨0, 20⟩], true⟩ 1 5 (by norm_num)).2

/-! ## Trip scheduler (`src/src/App.tsx`) -/

/-- The `MasterRoute` fields the scheduler reads. -/
structure Route where
  id : ℕ
  routeName : String
  encodedPolyline : List ℕ
  estimatedDurationMinutes : Option ℚ
deriving DecidableEq, Repr

/-- `ActiveTrip` from `src/src/App.tsx` (the trip id is the map key). -/
structure ActiveTrip where
  routeId : ℕ
  routeName : String
  decodedPoints : List LatLng
  currentPointIndex : ℕ
  isAnimating : Bool
  speedMultiplier : ℚ
  estimatedDuration : ℚ
  intervalRef : Option ℕ
  color : String
deriving DecidableEq, Repr

/-- A repeating timer armed by `setInterval` in `startAnimation`: the
callback closes over the trip snapshot (`points`) and a mutable local
`index`. -/
structure Timer where
  tripId : ℕ
  points : List LatLng
  index : ℕ
  intervalMs : ℚ
deriving DecidableEq, Repr

/-- The scheduler's in-memory state: the `activeTrips` map (modelled as an
association list in insertion order, keyed by trip id) and the armed
interval timers (keyed by the handle `setInterval` returned). -/
structure SchedulerState where
  activeTrips : List (ℕ × ActiveTrip)
  timers : List (ℕ × Timer)
deriving DecidableEq, Repr

/-- `Map.get`. -/
def alookup {α : Type} : List (ℕ × α) → ℕ → Option α
  | [], _ => none
  | (k, v) :: rest, key => if k = key then some v else alookup rest key

/-- `Map.set`: replace in place when the key exists, append otherwise. -/
def aset {α : Type} : List (ℕ × α) → ℕ → α → List (ℕ × α)
  | [], key, v => [(key, v)]
  | (k, v') :: rest, key, v =>
    if k = key then (key, v) :: rest else (k, v') :: aset rest key v

/-- The `const t = map.get(id); if (t) map.set(id, f t)` update pattern used
by every state update in the scheduler. -/
def amodify {α : Type} : List (ℕ × α) → ℕ → (α → α) → List (ℕ × α)
  | [], _, _ => []
  | (k, v) :: rest, key, f =>
    if k = key then (key, f v) :: rest else (k, v) :: amodify rest key f

/-- `clearInterval` / `Map.delete`. -/
def aremove {α : Type} : List (ℕ × α) → ℕ → List (ℕ × α)
  | [], _ => []
  | (k, v) :: rest, key =>
    if k = key then aremove rest key else (k, v) :: aremove rest key

/-- The Route Store (Supabase) calls the scheduler issues. -/
inductive StoreCall
  | insertTrip (routeId : ℕ) (routeName : String) (currentPointIndex : ℕ)
      (lat lng : ℚ) (totalPoints : ℕ) (speedMultiplier : ℚ)
      (isAnimating : Bool) (progressPercentage : ℚ)
  | updatePosition (tripId : ℕ) (currentPointIndex : ℕ) (lat lng : ℚ)
      (progressPercentage : ℚ) (isAnimating : Bool)
  | updateAnimating (tripId : ℕ) (isAnimating : Bool)
  | updateSpeed (tripId : ℕ) (speedMultiplier : ℚ)
  | deleteTrip (tripId : ℕ)
deriving DecidableEq, Repr

/-- The errors `createTrip` can surface. -/
inductive TripError
  | tripLimitExceeded
  | decodeFailed
  | invalidRouteData
deriving DecidableEq, Repr

def MAX_TRIPS : ℕ := 10

def TRIP_COLORS : List String :=
  ["#EF4444", "#3B82F6", "#10B981", "#F59E0B", "#8B5CF6",
   "#EC4899", "#14B8A6", "#F97316", "#6366F1", "#84CC16"]

/-- The `polyline.includes('\x5c\x5c')` test: two consecutive backslash
bytes (92) occur. -/
def containsDoubleBackslash : List ℕ → Bool
  | 92 :: 92 :: _ => true
  | _ :: rest => containsDoubleBackslash rest
  | [] => false

/-- `polyline.replace(...)` collapsing every doubled backslash run
left-to-right. -/
def collapseDoubleBackslash : List ℕ → List ℕ
  | 92 :: 92 :: rest => 92 :: collapseDoubleBackslash rest
  | c :: rest => c :: collapseDoubleBackslash rest
  | [] => []

/-- `progress.toFixed(2)` followed by `parseFloat`: round to 2 decimals. -/
def round2 (q : ℚ) : ℚ := (round (q * 100) : ℚ) / 100

/-- `createTrip` from `src/src/App.tsx`: reject at the trip ceiling before
any store contact, normalize doubled backslashes, decode, reject an empty
decode, otherwise insert the store record and cache the new trip. `newId`
stands for the store-assigned `trip_id`. -/
def createTrip (s : SchedulerState) (route : Route) (speedMultiplier : ℚ) (newId : ℕ) :
    SchedulerState × List StoreCall × Option TripError :=
  if MAX_TRIPS ≤ s.activeTrips.length then (s, [], some TripError.tripLimitExceeded)
  else
    let polyline := if containsDoubleBackslash route.encodedPolyline
      then collapseDoubleBackslash route.encodedPolyline
      else route.encodedPolyline
    match decodePolyline polyline with
    | none => (s, [], some TripError.decodeFailed)
    | some [] => (s, [], some TripError.invalidRouteData)
    | some (firstPoint :: more) =>
      let points := firstPoint :: more
      let newTrip : ActiveTrip :=
        { routeId := route.id
          routeName := route.routeName
          decodedPoints := points
          currentPointIndex := 0
          isAnimating := false
          speedMultiplier := speedMultiplier
          estimatedDuration := match route.estimatedDurationMinutes with
            | none => 210
            | some d => if d = 0 then 210 else d
          intervalRef := none
          color := TRIP_COLORS.getD (s.activeTrips.length % TRIP_COLORS.length) "" }
      (⟨aset s.activeTrips newId newTrip, s.timers⟩,
       [StoreCall.insertTrip route.id route.routeName 0 firstPoint.lat firstPoint.lng
          points.length speedMultiplier false 0],
       none)

/-- `startAnimation` from `src/src/App.tsx`: no-op when the trip is unknown
or already animating; otherwise arm a repeating timer at
`calculateTimePerPoint / speedMultiplier` whose closure captures the trip's
points and current index, and mark the trip animating. `newTimerId` stands
for the handle `setInterval` returned. -/
def startAnimation (s : SchedulerState) (tripId : ℕ) (newTimerId : ℕ) : SchedulerState :=
  match alookup s.activeTrips tripId with
  | none => s
  | some trip =>
    if trip.isAnimating then s
    else
      let timePerPoint := calculateTimePerPoint trip.estimatedDuration trip.decodedPoints.length
      let adjustedTime := timePerPoint / trip.speedMultiplier
      { activeTrips := amodify s.activeTrips tripId
          (fun t => { t with intervalRef := some newTimerId, isAnimating := true }),
        timers := (newTimerId,
          ⟨tripId, trip.decodedPoints, trip.currentPointIndex, adjustedTime⟩) :: s.timers }

/-- `stopAnimation` from `src/src/App.tsx`: no-op on an unknown trip;
otherwise cancel the trip's timer if any, clear its handle, clear
`isAnimating`, and push `is_animating = false` to the store. -/
def stopAnimation (s : SchedulerState) (tripId : ℕ) : SchedulerState × List StoreCall :=
  match alookup s.activeTrips tripId with
  | none => (s, [])
  | some trip =>
    let timers := match trip.intervalRef with
      | some tid => aremove s.timers tid
      | none => s.timers
    ({ activeTrips := amodify s.activeTrips tripId
         (fun t => { t with intervalRef := none, isAnimating := false }),
       timers := timers },
     [StoreCall.updateAnimating tripId false])

/-- One firing of the interval callback armed by `startAnimation`: increment
the closure's index; at the end of the snapshot, stop; otherwise push the
snapshot position/progress to the store and advance the cached trip. -/
def tick (s : SchedulerState) (timerId : ℕ) : SchedulerState × List StoreCall :=
  match alookup s.timers timerId with
  | none => (s, [])
  | some timer =>
    let index := timer.index + 1
    if timer.points.length ≤ index then stopAnimation s timer.tripId
    else
      let currentPoint := timer.points.getD index default
      let progress := round2 ((index : ℚ) / ((timer.points.length : ℚ) - 1) * 100)
      ({ activeTrips := amodify s.activeTrips timer.tripId
           (fun t => { t with currentPointIndex := index, isAnimating := true }),
         timers := aset s.timers timerId { timer with index := index } },
       [StoreCall.updatePosition timer.tripId index currentPoint.lat currentPoint.lng
          progress true])

/-- `updateTripSpeed` from `src/src/App.tsx`: stop if animating, persist the
new multiplier, cache it, restart if it was animating. -/
def updateTripSpeed (s : SchedulerState) (tripId : ℕ) (newSpeed : ℚ) (newTimerId : ℕ) :
    SchedulerState × List StoreCall :=
  match alookup s.activeTrips tripId with
  | none => (s, [])
  | some trip =>
    let wasAnimating := trip.isAnimating
    let s1calls := if wasAnimating then stopAnimation s tripId else (s, [])
    let s2 : SchedulerState :=
      ⟨amodify s1calls.1.activeTrips tripId
          (fun t => { t with speedMultiplier := newSpeed }), s1calls.1.timers⟩
    let s3 := if wasAnimating then startAnimation s2 tripId newTimerId else s2
    (s3, s1calls.2 ++ [StoreCall.updateSpeed tripId newSpeed])

/-- The per-trip Reset button handler from `src/src/App.tsx`: stop, move the
cached index back to 0, persist the first snapshot point with zero
progress. -/
def resetTrip (s : SchedulerState) (tripId : ℕ) : SchedulerState × List StoreCall :=
  match alookup s.activeTrips tripId with
  | none => (s, [])
  | some trip =>
    let s1calls := stopAnimation s tripId
    let s2 : SchedulerState :=
      ⟨amodify s1calls.1.activeTrips tripId
          (fun t => { t with currentPointIndex := 0, isAnimating := false }), s1calls.1.timers⟩
    let firstPoint := trip.decodedPoints.getD 0 default
    (s2, s1calls.2
      ++ [StoreCall.updatePosition tripId 0 firstPoint.lat firstPoint.lng 0 false])

/-- The scheduler operations of spec §4.4 as a single step alphabet. -/
inductive SchedOp
  | create (route : Route) (speedMultiplier : ℚ) (newId : ℕ)
  | start (tripId : ℕ) (newTimerId : ℕ)
  | stop (tripId : ℕ)
  | speed (tripId : ℕ) (newSpeed : ℚ) (newTimerId : ℕ)
  | reset (tripId : ℕ)
  | timerTick (timerId : ℕ)
deriving DecidableEq, Repr

/-- Apply one scheduler operation. -/
def applyOp (s : SchedulerState) (op : SchedOp) : SchedulerState × List StoreCall :=
  match op with
  | SchedOp.create route sp newId =>
    let r := createTrip s route sp newId
    (r.1, r.2.1)
  | SchedOp.start tripId tId => (startAnimation s tripId tId, [])
  | SchedOp.stop tripId => stopAnimation s tripId
  | SchedOp.speed tripId sp tId => updateTripSpeed s tripId sp tId
  | SchedOp.reset tripId => resetTrip s tripId
  | SchedOp.timerTick tId => tick s tId

lemma alookup_nil {α : Type} (key : ℕ) : alookup ([] : List (ℕ × α)) key = none := rfl

lemma alookup_cons {α : Type} (k : ℕ) (v : α) (rest : List (ℕ × α)) (key : ℕ) :
    alookup ((k, v) :: rest) key = if k = key then some v else alookup rest key := rfl

lemma amodify_cons {α : Type} (k' : ℕ) (v : α) (rest : List (ℕ × α)) (k : ℕ) (f : α → α) :
    amodify ((k', v) :: rest) k f
      = if k' = k then (k, f v) :: rest else (k', v) :: amodify rest k f := rfl

lemma aset_cons {α : Type} (k' : ℕ) (v' : α) (rest : List (ℕ × α)) (k : ℕ) (v : α) :
    aset ((k', v') :: rest) k v
      = if k' = k then (k, v) :: rest else (k', v') :: aset rest k v := rfl

lemma aremove_cons {α : Type} (k' : ℕ) (v : α) (rest : List (ℕ × α)) (k : ℕ) :
    aremove ((k', v) :: rest) k
      = if k' = k then aremove rest k else (k', v) :: aremove rest k := rfl

lemma alookup_mem {α : Type} (l : List (ℕ × α)) (k : ℕ) (v : α)
    (h : alookup l k = some v) : (k, v) ∈ l := by
  induction l with
  | nil => rw [alookup_nil] at h; cases h
  | cons p rest ih =>
    obtain ⟨k', v'⟩ := p
    rw [alookup_cons] at h
    split_ifs at h with hk
    · injection h with hv
      subst hk hv
      exact List.mem_cons_self _ _
    · exact List.mem_cons_of_mem _ (ih h)

lemma alookup_amodify {α : Type} (l : List (ℕ × α)) (k : ℕ) (f : α → α) (key : ℕ) :
    alookup (amodify l k f) key
      = if key = k then (alookup l k).map f else alookup l key := by
  induction l with
  | nil =>
    by_cases h : key = k
    · rw [if_pos h]; rfl
    · rw [if_neg h]; rfl
  | cons p rest ih =>
    obtain ⟨k', v⟩ := p
    rw [amodify_cons]
    by_cases h1 : k' = k
    · rw [if_pos h1]
      subst h1
      by_cases h2 : key = k'
      · subst h2
        rw [if_pos rfl, alookup_cons, if_pos rfl, alookup_cons, if_pos rfl]
        rfl
      · rw [if_neg h2, alookup_cons, if_neg (fun he => h2 he.symm),
          alookup_cons, if_neg (fun he => h2 he.symm)]
    · rw [if_neg h1, alookup_cons]
      by_cases h2 : k' = key
      · subst h2
        rw [if_pos rfl, if_neg h1, alookup_cons, if_pos rfl]
      · rw [if_neg h2, ih]
        have e1 : alookup ((k', v) :: rest) k = alookup rest k := by
          rw [alookup_cons, if_neg h1]
        have e2 : alookup ((k', v) :: rest) key = alookup rest key := by
          rw [alookup_cons, if_neg h2]
        rw [e1, e2]

lemma alookup_aset {α : Type} (l : List (ℕ × α)) (k : ℕ) (v : α) (key : ℕ) :
    alookup (aset l k v) key = if key = k then some v else alookup l key := by
  induction l with
  | nil =>
    show alookup [(k, v)] key = _
    rw [alookup_cons]
    by_cases h : key = k
    · rw [if_pos h, if_pos (h ▸ rfl)]
    · rw [if_neg h, if_neg (fun he => h he.symm)]
  | cons p rest ih =>
    obtain ⟨k', v'⟩ := p
    rw [aset_cons]
    by_cases h1 : k' = k
    · rw [if_pos h1]
      subst h1
      by_cases h2 : key = k'
      · subst h2
        rw [if_pos rfl, alookup_cons, if_pos rfl]
      · rw [if_neg h2, alookup_cons, if_neg (fun he => h2 he.symm),
          alookup_cons, if_neg (fun he => h2 he.symm)]
    · rw [if_neg h1, alookup_cons]
      by_cases h2 : k' = key
      · subst h2
        rw [if_pos rfl, if_neg h1, alookup_cons, if_pos rfl]
      · rw [if_neg h2, ih]
        have e2 : alookup ((k', v') :: rest) key = alookup rest key := by
          rw [alookup_cons, if_neg h2]
        rw [e2]

lemma mem_amodify {α : Type} (l : List (ℕ × α)) (k : ℕ) (f : α → α) :
    ∀ x ∈ amodify l k f, x ∈ l ∨ ∃ v, alookup l k = some v ∧ x = (k, f v) := by
  induction l with
  | nil => intro x hx; exact absurd hx (List.not_mem_nil x)
  | cons p rest ih =>
    obtain ⟨k', v'⟩ := p
    intro x hx
    rw [amodify_cons] at hx
    split_ifs at hx with h1
    · subst h1
      rw [List.mem_cons] at hx
      rcases hx with h | h
      · exact Or.inr ⟨v', by rw [alookup_cons, if_pos rfl], h⟩
      · exact Or.inl (List.mem_cons_of_mem _ h)
    · rw [List.mem_cons] at hx
      rcases hx with h | h
      · exact Or.inl (h ▸ List.mem_cons_self _ _)
      · rcases ih x h with h2 | ⟨v, hv1, hv2⟩
        · exact Or.inl (List.mem_cons_of_mem _ h2)
        · exact Or.inr ⟨v, by rw [alookup_cons, if_neg h1]; exact hv1, hv2⟩

lemma mem_aset {α : Type} (l : List (ℕ × α)) (k : ℕ) (v : α) :
    ∀ x ∈ aset l k v, x = (k, v) ∨ x ∈ l := by
  induction l with
  | nil =>
    intro x hx
    rcases List.mem_cons.mp hx with h | h
    · exact Or.inl h
    · exact absurd h (List.not_mem_nil x)
  | cons p rest ih =>
    obtain ⟨k', v'⟩ := p
    intro x hx
    rw [aset_cons] at hx
    split_ifs at hx with h1
    · rcases List.mem_cons.mp hx with h | h
      · exact Or.inl h
      · exact Or.inr (List.mem_cons_of_mem _ h)
    · rcases List.mem_cons.mp hx with h | h
      · exact Or.inr (h ▸ List.mem_cons_self _ _)
      · rcases ih x h with h2 | h2
        · exact Or.inl h2
        · exact Or.inr (List.mem_cons_of_mem _ h2)

lemma mem_aremove {α : Type} (l : List (ℕ × α)) (k : ℕ) :
    ∀ x ∈ aremove l k, x ∈ l := by
  induction l with
  | nil => intro x hx; exact absurd hx (List.not_mem_nil x)
  | cons p rest ih =>
    obtain ⟨k', v'⟩ := p
    intro x hx
    rw [aremove_cons] at hx
    split_ifs at hx with h1
    · exact List.mem_cons_of_mem _ (ih x hx)
    · rcases List.mem_cons.mp hx with h | h
      · exact h ▸ List.mem_cons_self _ _
      · exact List.mem_cons_of_mem _ (ih x h)

lemma amodify_eq_of_fix {α : Type} (l : List (ℕ × α)) (k : ℕ) (f : α → α)
    (h : ∀ v, alookup l k = some v → f v = v) : amodify l k f = l := by
  induction l with
  | nil => rfl
  | cons p rest ih =>
    obtain ⟨k', v'⟩ := p
    rw [amodify_cons]
    split_ifs with h1
    · subst h1
      rw [h v' (by rw [alookup_cons, if_pos rfl])]
    · rw [ih]
      intro v hv
      exact h v (by rw [alookup_cons, if_neg h1]; exact hv)

/-- The spec's per-trip data-model invariant `0 ≤ currentPointIndex <
totalPoints`; the lower bound is inherent in `ℕ`, and `totalPoints` is the
decoded point count. -/
def tripIndexOk (t : ActiveTrip) : Prop :=
  t.currentPointIndex < t.decodedPoints.length

instance (t : ActiveTrip) : Decidable (tripIndexOk t) :=
  Nat.decLt _ _

/-- An armed timer refers to an existing trip whose decoded points equal the
snapshot captured by the timer's closure. -/
def timerOk (trips : List (ℕ × ActiveTrip)) (tm : Timer) : Prop :=
  (alookup trips tm.tripId).map ActiveTrip.decodedPoints = some tm.points

instance (trips : List (ℕ × ActiveTrip)) (tm : Timer) : Decidable (timerOk trips tm) :=
  inferInstanceAs (Decidable
    ((alookup trips tm.tripId).map ActiveTrip.decodedPoints = some tm.points))

/-- The scheduler invariant: every cached trip is in range and every armed
timer's snapshot agrees with its trip. -/
def SchedInv (s : SchedulerState) : Prop :=
  (∀ p ∈ s.activeTrips, tripIndexOk (Prod.snd p))
  ∧ (∀ p ∈ s.timers, timerOk s.activeTrips (Prod.snd p))

instance (s : SchedulerState) : Decidable (SchedInv s) :=
  inferInstanceAs (Decidable ((∀ p ∈ s.activeTrips, tripIndexOk (Prod.snd p))
    ∧ (∀ p ∈ s.timers, timerOk s.activeTrips (Prod.snd p))))

lemma timerOk_amodify (trips : List (ℕ × ActiveTrip)) (k : ℕ)
    (f : ActiveTrip → ActiveTrip)
    (hpts : ∀ t, (f t).decodedPoints = t.decodedPoints)
    (tm : Timer) (hold : timerOk trips tm) :
    timerOk (amodify trips k f) tm := by
  rw [timerOk] at hold ⊢
  rw [alookup_amodify]
  split_ifs with he
  · rw [he] at hold
    cases hl : alookup trips k with
    | none => rw [hl] at hold; cases hold
    | some trip =>
      rw [hl] at hold
      simp only [Option.map_some'] at hold ⊢
      rw [hpts]
      exact hold
  · exact hold

lemma schedInv_amodify (s : SchedulerState) (k : ℕ) (f : ActiveTrip → ActiveTrip)
    (timers' : List (ℕ × Timer))
    (hpts : ∀ t, (f t).decodedPoints = t.decodedPoints)
    (hidx : ∀ t, tripIndexOk t → tripIndexOk (f t))
    (ht : ∀ p ∈ timers', p ∈ s.timers)
    (hinv : SchedInv s) :
    SchedInv ⟨amodify s.activeTrips k f, timers'⟩ := by
  obtain ⟨h1, h2⟩ := hinv
  constructor
  · intro p hp
    rcases mem_amodify _ _ _ p hp with h | ⟨v, hv1, hv2⟩
    · exact h1 p h
    · rw [hv2]
      exact hidx v (h1 (k, v) (alookup_mem _ _ _ hv1))
  · intro p hp
    exact timerOk_amodify _ _ _ hpts _ (h2 p (ht p hp))

lemma schedInv_stopAnimation (s : SchedulerState) (tripId : ℕ)
    (hinv : SchedInv s) : SchedInv (stopAnimation s tripId).1 := by
  rw [stopAnimation]
  split
  · exact hinv
  · next trip heq =>
    dsimp only
    refine schedInv_amodify s tripId _ _ ?_ ?_ ?_ hinv
    · intro t; rfl
    · intro t h; exact h
    · intro p hp
      split at hp
      · exact mem_aremove _ _ p hp
      · exact hp

lemma schedInv_startAnimation (s : SchedulerState) (tripId tId : ℕ)
    (hinv : SchedInv s) : SchedInv (startAnimation s tripId tId) := by
  rw [startAnimation]
  split
  · exact hinv
  · next trip heq =>
    split_ifs with hAnim
    · exact hinv
    · dsimp only
      obtain ⟨h1, h2⟩ := hinv
      constructor
      · intro p hp
        dsimp only at hp
        rcases mem_amodify _ _ _ p hp with h | ⟨v, hv1, hv2⟩
        · exact h1 p h
        · rw [hv2]
          exact h1 (tripId, v) (alookup_mem _ _ _ hv1)
      · intro p hp
        dsimp only at hp ⊢
        rcases List.mem_cons.mp hp with h | h
        · rw [h]
          show (alookup (amodify s.activeTrips tripId _) tripId).map
              ActiveTrip.decodedPoints = some trip.decodedPoints
          rw [alookup_amodify, if_pos rfl, heq]
          rfl
        · refine timerOk_amodify _ _ _ ?_ _ (h2 p h)
          intro t; rfl

lemma schedInv_tick (s : SchedulerState) (timerId : ℕ)
    (hinv : SchedInv s) : SchedInv (tick s timerId).1 := by
  rw [tick]
  split
  · exact hinv
  · next timer heq =>
    dsimp only
    split_ifs with hend
    · exact schedInv_stopAnimation _ _ hinv
    · obtain ⟨h1, h2⟩ := hinv
      have htm : (timerId, timer) ∈ s.timers := alookup_mem _ _ _ heq
      have hok := h2 _ htm
      dsimp only at hok
      rw [timerOk] at hok
      obtain ⟨trip1, hl1, hp1⟩ := Option.map_eq_some'.mp hok
      constructor
      · intro p hp
        dsimp only at hp
        rcases mem_amodify _ _ _ p hp with h | ⟨v, hv1, hv2⟩
        · exact h1 p h
        · rw [hv2]
          have hveq : v = trip1 := Option.some.inj (hv1.symm.trans hl1)
          show timer.index + 1 < v.decodedPoints.length
          rw [hveq, hp1]
          omega
      · intro p hp
        dsimp only at hp ⊢
        rcases mem_aset _ _ _ p hp with h | h
        · rw [h]
          refine timerOk_amodify _ _ _ ?_ _ hok
          intro t; rfl
        · refine timerOk_amodify _ _ _ ?_ _ (h2 p h)
          intro t; rfl

lemma schedInv_updateTripSpeed (s : SchedulerState) (tripId : ℕ) (sp : ℚ) (tId : ℕ)
    (hinv : SchedInv s) : SchedInv (updateTripSpeed s tripId sp tId).1 := by
  rw [updateTripSpeed]
  split
  · exact hinv
  · next trip heq =>
    dsimp only
    split_ifs with hW
    · apply schedInv_startAnimation
      refine schedInv_amodify _ tripId _ _ ?_ ?_ ?_
        (schedInv_stopAnimation s tripId hinv)
      · intro t; rfl
      · intro t h; exact h
      · intro p hp; exact hp
    · refine schedInv_amodify _ tripId _ _ ?_ ?_ ?_ hinv
      · intro t; rfl
      · intro t h; exact h
      · intro p hp; exact hp

lemma schedInv_resetTrip (s : SchedulerState) (tripId : ℕ)
    (hinv : SchedInv s) : SchedInv (resetTrip s tripId).1 := by
  rw [resetTrip]
  split
  · exact hinv
  · next trip heq =>
    dsimp only
    refine schedInv_amodify _ tripId _ _ ?_ ?_ ?_
      (schedInv_stopAnimation s tripId hinv)
    · intro t; rfl
    · intro t h
      show (0 : ℕ) < t.decodedPoints.length
      rw [tripIndexOk] at h
      omega
    · intro p hp; exact hp

lemma schedInv_createTrip (s : SchedulerState) (route : Route) (sp : ℚ) (newId : ℕ)
    (hfresh : alookup s.activeTrips newId = none)
    (hinv : SchedInv s) : SchedInv (createTrip s route sp newId).1 := by
  rw [createTrip]
  by_cases hlim : MAX_TRIPS ≤ s.activeTrips.length
  · rw [if_pos hlim]; exact hinv
  · rw [if_neg hlim]
    dsimp only
    split
    · exact hinv
    · exact hinv
    · next firstPoint more heq =>
      obtain ⟨h1, h2⟩ := hinv
      constructor
      · intro p hp
        dsimp only at hp
        rcases mem_aset _ _ _ p hp with h | h
        · rw [h]
          show (0 : ℕ) < (firstPoint :: more).length
          simp
        · exact h1 p h
      · intro p hp
        dsimp only at hp ⊢
        have hold := h2 p hp
        rw [timerOk] at hold ⊢
        rw [alookup_aset]
        split_ifs with he
        · rw [he, hfresh] at hold
          cases hold
        · exact hold

/-- The store-assignment guarantee `createTrip` relies on: the id the store
hands back is not already cached. All other operations need nothing. -/
def opOk (s : SchedulerState) : SchedOp → Prop
  | SchedOp.create _ _ newId => alookup s.activeTrips newId = none
  | _ => True

instance (s : SchedulerState) (op : SchedOp) : Decidable (opOk s op) := by
  cases op <;> dsimp only [opOk] <;> infer_instance

/-- An 11-point route used by the C2 and C7 scenarios. -/
def points11 : List LatLng :=
  [⟨0, 0⟩, ⟨1, 1⟩, ⟨2, 2⟩, ⟨3, 3⟩, ⟨4, 4⟩, ⟨5, 5⟩,
   ⟨6, 6⟩, ⟨7, 7⟩, ⟨8, 8⟩, ⟨9, 9⟩, ⟨10, 10⟩]

/-- C2 scenario: a trip at `currentPointIndex = 10` of `totalPoints = 11`,
animating on timer 5. -/
def nearEndTrip : ActiveTrip :=
  ⟨7, "R", points11, 10, true, 1, 11, some 5, "#EF4444"⟩

def nearEndState : SchedulerState :=
  ⟨[(1, nearEndTrip)], [(5, ⟨1, points11, 10, 60000⟩)]⟩

/-- C2: `0 ≤ currentPointIndex < totalPoints` holds for the trip created by
a successful CreateTrip and is preserved by every scheduler operation; a
tick that would push the index to `totalPoints` instead goes idle with the
index left at `totalPoints − 1` (scenario: index 10 of 11 stays 10, the
timer is cancelled, `isAnimating` becomes false). -/
theorem C2_index_invariant :
    (∀ (s : SchedulerState) (op : SchedOp),
        SchedInv s → opOk s op → SchedInv (applyOp s op).1)
    ∧ (∀ (s : SchedulerState) (route : Route) (sp : ℚ) (newId : ℕ),
        (createTrip s route sp newId).2.2 = none →
        ∃ t, alookup (createTrip s route sp newId).1.activeTrips newId = some t
          ∧ t.currentPointIndex = 0 ∧ 0 < t.decodedPoints.length)
    ∧ (tick nearEndState 5).1
        = (⟨[(1, { nearEndTrip with isAnimating := false, intervalRef := none })], []⟩
            : SchedulerState) := by
  refine ⟨?_, ?_, ?_⟩
  · intro s op hinv hok
    cases op with
    | create route sp newId => exact schedInv_createTrip s route sp newId hok hinv
    | start tripId tId => exact schedInv_startAnimation s tripId tId hinv
    | stop tripId => exact schedInv_stopAnimation s tripId hinv
    | speed tripId sp tId => exact schedInv_updateTripSpeed s tripId sp tId hinv
    | reset tripId => exact schedInv_resetTrip s tripId hinv
    | timerTick tId => exact schedInv_tick s tId hinv
  · intro s route sp newId hsucc
    rw [createTrip] at hsucc ⊢
    by_cases hlim : MAX_TRIPS ≤ s.activeTrips.length
    · rw [if_pos hlim] at hsucc
      cases hsucc
    · rw [if_neg hlim] at hsucc ⊢
      dsimp only at hsucc ⊢
      cases hdec : decodePolyline (if containsDoubleBackslash route.encodedPolyline
          then collapseDoubleBackslash route.encodedPolyline
          else route.encodedPolyline) with
      | none =>
        rw [hdec] at hsucc
        cases hsucc
      | some points =>
        cases points with
        | nil =>
          rw [hdec] at hsucc
          cases hsucc
        | cons firstPoint more =>
          dsimp only
          refine ⟨_, by rw [alookup_aset, if_pos rfl], ?_, ?_⟩
          · rfl
          · simp
  · decide

theorem C2_index_invariant_witness :
    SchedInv nearEndState
    ∧ SchedInv (applyOp nearEndState (SchedOp.timerTick 5)).1
    ∧ (createTrip (⟨[], []⟩ : SchedulerState) ⟨1, "R", [63, 63], none⟩ 1 1).2.2 = none
    ∧ ∃ t, alookup
          (createTrip (⟨[], []⟩ : SchedulerState) ⟨1, "R", [63, 63], none⟩ 1 1).1.activeTrips 1
        = some t ∧ t.currentPointIndex = 0 ∧ 0 < t.decodedPoints.length :=
  ⟨by decide,
   C2_index_invariant.1 nearEndState (SchedOp.timerTick 5) (by decide) trivial,
   rfl,
   C2_index_invariant.2.1 (⟨[], []⟩ : SchedulerState) ⟨1, "R", [63, 63], none⟩ 1 1 rfl⟩

/-- C3 counterexample: a route whose polyline decodes to exactly one point
(`totalPoints = 1`) is accepted by `createTrip` — the error slot is empty, a
store insert is issued, and the trip is cached — contradicting the claim
that one-point routes are rejected. -/
theorem C3_one_point_route_accepted :
    decodePolyline [63, 63] = some [⟨0, 0⟩]
    ∧ (createTrip (⟨[], []⟩ : SchedulerState) ⟨1, "R", [63, 63], none⟩ 1 1).2.2 = none
    ∧ (createTrip (⟨[], []⟩ : SchedulerState) ⟨1, "R", [63, 63], none⟩ 1 1).1.activeTrips.length
        = 1 := by
  refine ⟨?_, rfl, rfl⟩
  have h : decodeScaled [63, 63] = some [(0, 0)] := rfl
  rw [decodePolyline, polylineDecode, h]
  norm_num

/-- C3 (amended): `createTrip` fails, creating no trip and issuing no store
call, whenever decoding the route's (backslash-normalized) encoded
coordinates yields zero points; a one-point route is not rejected. -/
theorem C3_empty_route_fails (s : SchedulerState) (route : Route) (sp : ℚ) (newId : ℕ)
    (hlim : s.activeTrips.length < MAX_TRIPS)
    (hdec : decodePolyline (if containsDoubleBackslash route.encodedPolyline
        then collapseDoubleBackslash route.encodedPolyline
        else route.encodedPolyline) = some []) :
    createTrip s route sp newId = (s, [], some TripError.invalidRouteData) := by
  rw [createTrip, if_neg (by omega)]
  dsimp only
  rw [hdec]

theorem C3_empty_route_fails_witness :
    (SchedulerState.activeTrips ⟨[], []⟩).length < MAX_TRIPS
    ∧ decodePolyline (if containsDoubleBackslash ([] : List ℕ)
        then collapseDoubleBackslash [] else []) = some []
    ∧ createTrip (⟨[], []⟩ : SchedulerState) ⟨1, "R", [], none⟩ 1 1
        = ((⟨[], []⟩ : SchedulerState), [], some TripError.invalidRouteData) :=
  ⟨by decide, rfl, C3_empty_route_fails ⟨[], []⟩ ⟨1, "R", [], none⟩ 1 1 (by decide) rfl⟩

/-- C8: with 10 trips already tracked, `createTrip` fails with the trip
limit error before issuing any store call, leaving the collection
unchanged. -/
theorem C8_trip_limit_exceeded (s : SchedulerState) (route : Route) (sp : ℚ) (newId : ℕ)
    (h : s.activeTrips.length = 10) :
    createTrip s route sp newId = (s, [], some TripError.tripLimitExceeded) := by
  rw [createTrip, if_pos (by rw [h]; norm_num [MAX_TRIPS])]

/-- A filled scheduler: ten cached trips. -/
def fullState : SchedulerState :=
  ⟨[(1, ⟨0, "R", [⟨0, 0⟩], 0, false, 1, 210, none, "#EF4444"⟩),
    (2, ⟨0, "R", [⟨0, 0⟩], 0, false, 1, 210, none, "#EF4444"⟩),
    (3, ⟨0, "R", [⟨0, 0⟩], 0, false, 1, 210, none, "#EF4444"⟩),
    (4, ⟨0, "R", [⟨0, 0⟩], 0, false, 1, 210, none, "#EF4444"⟩),
    (5, ⟨0, "R", [⟨0, 0⟩], 0, false, 1, 210, none, "#EF4444"⟩),
    (6, ⟨0, "R", [⟨0, 0⟩], 0, false, 1, 210, none, "#EF4444"⟩),
    (7, ⟨0, "R", [⟨0, 0⟩], 0, false, 1, 210, none, "#EF4444"⟩),
    (8, ⟨0, "R", [⟨0, 0⟩], 0, false, 1, 210, none, "#EF4444"⟩),
    (9, ⟨0, "R", [⟨0, 0⟩], 0, false, 1, 210, none, "#EF4444"⟩),
    (10, ⟨0, "R", [⟨0, 0⟩], 0, false, 1, 210, none, "#EF4444"⟩)], []⟩

theorem C8_trip_limit_exceeded_witness :
    fullState.activeTrips.length = 10
    ∧ createTrip fullState ⟨1, "R", [63, 63], none⟩ 1 11
        = (fullState, [], some TripError.tripLimitExceeded) :=
  ⟨rfl, C8_trip_limit_exceeded fullState ⟨1, "R", [63, 63], none⟩ 1 11 rfl⟩

lemma stopAnimation_of_none (s : SchedulerState) (tripId : ℕ)
    (h : alookup s.activeTrips tripId = none) :
    stopAnimation s tripId = (s, []) := by
  rw [stopAnimation, h]

lemma stopAnimation_of_idle (s : SchedulerState) (tripId : ℕ) (trip : ActiveTrip)
    (h : alookup s.activeTrips tripId = some trip)
    (hAnim : trip.isAnimating = false) (hRef : trip.intervalRef = none) :
    (stopAnimation s tripId).1 = s := by
  rw [stopAnimation, h]
  dsimp only
  rw [hRef]
  have hfix : amodify s.activeTrips tripId
      (fun t => { t with intervalRef := none, isAnimating := false })
      = s.activeTrips := by
    apply amodify_eq_of_fix
    intro v hv
    have hveq : v = trip := Option.some.inj (hv.symm.trans h)
    subst hveq
    cases v
    simp_all
  rw [hfix]

/-- C9: `stopAnimation` is idempotent on the in-memory state — a second stop
reproduces the state the first produced; stopping an unknown trip is a
complete no-op, and stopping an already-idle trip (no timer handle, not
animating) leaves the state unchanged. -/
theorem C9_stop_idempotent :
    (∀ (s : SchedulerState) (tripId : ℕ),
        (stopAnimation (stopAnimation s tripId).1 tripId).1 = (stopAnimation s tripId).1)
    ∧ (∀ (s : SchedulerState) (tripId : ℕ),
        alookup s.activeTrips tripId = none → stopAnimation s tripId = (s, []))
    ∧ (∀ (s : SchedulerState) (tripId : ℕ) (trip : ActiveTrip),
        alookup s.activeTrips tripId = some trip →
        trip.isAnimating = false → trip.intervalRef = none →
        (stopAnimation s tripId).1 = s) := by
  refine ⟨?_, stopAnimation_of_none, stopAnimation_of_idle⟩
  intro s tripId
  cases h : alookup s.activeTrips tripId with
  | none =>
    rw [stopAnimation_of_none s tripId h]
    exact congrArg Prod.fst (stopAnimation_of_none s tripId h)
  | some trip =>
    have h1 : (stopAnimation s tripId).1.activeTrips
        = amodify s.activeTrips tripId
            (fun t => { t with intervalRef := none, isAnimating := false }) := by
      rw [stopAnimation, h]
    have h2 : alookup (stopAnimation s tripId).1.activeTrips tripId
        = some { trip with intervalRef := none, isAnimating := false } := by
      rw [h1, alookup_amodify, if_pos rfl, h]
      rfl
    exact stopAnimation_of_idle _ tripId _ h2 rfl rfl

theorem C9_stop_idempotent_witness :
    (stopAnimation (stopAnimation nearEndState 1).1 1).1 = (stopAnimation nearEndState 1).1
    ∧ stopAnimation (⟨[], []⟩ : SchedulerState) 2 = ((⟨[], []⟩ : SchedulerState), [])
    ∧ (stopAnimation fullState 1).1 = fullState :=
  ⟨C9_stop_idempotent.1 nearEndState 1,
   C9_stop_idempotent.2.1 ⟨[], []⟩ 2 rfl,
   C9_stop_idempotent.2.2 fullState 1 _ rfl rfl rfl⟩

/-- The fields of a cached trip that CreateTrip captures and no later
operation may change. -/
def tripFieldsEq (t' t : ActiveTrip) : Prop :=
  t'.routeId = t.routeId ∧ t'.routeName = t.routeName
  ∧ t'.decodedPoints = t.decodedPoints ∧ t'.estimatedDuration = t.estimatedDuration
  ∧ t'.color = t.color

lemma tripFieldsEq_refl (t : ActiveTrip) : tripFieldsEq t t :=
  ⟨rfl, rfl, rfl, rfl, rfl⟩

/-- Every trip in `l'` is a trip of `l` with its captured fields intact. -/
def framePreserved (l' l : List (ℕ × ActiveTrip)) : Prop :=
  ∀ id trip', alookup l' id = some trip' →
    ∃ trip, alookup l id = some trip ∧ tripFieldsEq trip' trip

lemma framePreserved_refl (l : List (ℕ × ActiveTrip)) : framePreserved l l :=
  fun _ trip' h => ⟨trip', h, tripFieldsEq_refl trip'⟩

lemma framePreserved_trans {l1 l2 l3 : List (ℕ × ActiveTrip)}
    (h12 : framePreserved l1 l2) (h23 : framePreserved l2 l3) :
    framePreserved l1 l3 := by
  intro id trip' h
  obtain ⟨t2, ht2, he1⟩ := h12 id trip' h
  obtain ⟨t3, ht3, he2⟩ := h23 id t2 ht2
  refine ⟨t3, ht3, ?_⟩
  obtain ⟨a1, b1, c1, d1, e1⟩ := he1
  obtain ⟨a2, b2, c2, d2, e2⟩ := he2
  exact ⟨a1.trans a2, b1.trans b2, c1.trans c2, d1.trans d2, e1.trans e2⟩

lemma framePreserved_amodify (l : List (ℕ × ActiveTrip)) (k : ℕ)
    (f : ActiveTrip → ActiveTrip) (hf : ∀ t, tripFieldsEq (f t) t) :
    framePreserved (amodify l k f) l := by
  intro id trip' h
  rw [alookup_amodify] at h
  split_ifs at h with he
  · cases hl : alookup l k with
    | none => rw [hl] at h; cases h
    | some t =>
      rw [hl] at h
      injection h with h'
      exact ⟨t, by rw [he]; exact hl, h' ▸ hf t⟩
  · exact ⟨trip', h, tripFieldsEq_refl _⟩

lemma framePreserved_stopAnimation (s : SchedulerState) (tripId : ℕ) :
    framePreserved (stopAnimation s tripId).1.activeTrips s.activeTrips := by
  rw [stopAnimation]
  split
  · exact framePreserved_refl _
  · next trip heq =>
    dsimp only
    exact framePreserved_amodify _ _ _ (fun t => ⟨rfl, rfl, rfl, rfl, rfl⟩)

lemma framePreserved_startAnimation (s : SchedulerState) (tripId tId : ℕ) :
    framePreserved (startAnimation s tripId tId).activeTrips s.activeTrips := by
  rw [startAnimation]
  split
  · exact framePreserved_refl _
  · next trip heq =>
    split_ifs with hAnim
    · exact framePreserved_refl _
    · dsimp only
      exact framePreserved_amodify _ _ _ (fun t => ⟨rfl, rfl, rfl, rfl, rfl⟩)

/-- Operations other than CreateTrip. -/
def SchedOp.isCreate : SchedOp → Bool
  | SchedOp.create _ _ _ => true
  | _ => false

/-- C10: the decoded point sequence, route id, route name (and the captured
duration and color) of every cached trip are never modified by
StartAnimation, ticks, StopAnimation, UpdateSpeed, or ResetTrip: any trip
present after such an operation existed before it with those captured
fields identical. -/
theorem C10_captured_fields_frame (s : SchedulerState) (op : SchedOp)
    (h : op.isCreate = false) :
    framePreserved (applyOp s op).1.activeTrips s.activeTrips := by
  cases op with
  | create route sp newId => cases h
  | start tripId tId => exact framePreserved_startAnimation s tripId tId
  | stop tripId => exact framePreserved_stopAnimation s tripId
  | speed tripId sp tId =>
    show framePreserved (updateTripSpeed s tripId sp tId).1.activeTrips s.activeTrips
    rw [updateTripSpeed]
    split
    · exact framePreserved_refl _
    · next trip heq =>
      dsimp only
      split_ifs with hW
      · refine framePreserved_trans (framePreserved_trans
          (framePreserved_startAnimation _ tripId tId) ?_)
          (framePreserved_stopAnimation s tripId)
        exact framePreserved_amodify _ _ _ (fun t => ⟨rfl, rfl, rfl, rfl, rfl⟩)
      · exact framePreserved_amodify _ _ _ (fun t => ⟨rfl, rfl, rfl, rfl, rfl⟩)
  | reset tripId =>
    show framePreserved (resetTrip s tripId).1.activeTrips s.activeTrips
    rw [resetTrip]
    split
    · exact framePreserved_refl _
    · next trip heq =>
      dsimp only
      refine framePreserved_trans ?_ (framePreserved_stopAnimation s tripId)
      exact framePreserved_amodify _ _ _ (fun t => ⟨rfl, rfl, rfl, rfl, rfl⟩)
  | timerTick tId =>
    show framePreserved (tick s tId).1.activeTrips s.activeTrips
    rw [tick]
    split
    · exact framePreserved_refl _
    · next timer heq =>
      dsimp only
      split_ifs with hend
      · exact framePreserved_stopAnimation s timer.tripId
      · exact framePreserved_amodify _ _ _ (fun t => ⟨rfl, rfl, rfl, rfl, rfl⟩)

theorem C10_captured_fields_frame_witness :
    SchedOp.isCreate (SchedOp.timerTick 5) = false
    ∧ framePreserved (applyOp nearEndState (SchedOp.timerTick 5)).1.activeTrips
        nearEndState.activeTrips :=
  ⟨rfl, C10_captured_fields_frame nearEndState (SchedOp.timerTick 5) rfl⟩

/-- C7 scenario: an idle trip on the 11-point route with
`estimatedDurationMinutes = 11` and `speedMultiplier = 1`. -/
def c7Trip : ActiveTrip := ⟨7, "R", points11, 0, false, 1, 11, none, "#EF4444"⟩

def c7State : SchedulerState := ⟨[(1, c7Trip)], []⟩

/-- C7: `startAnimation` arms its repeating timer at
`(estimatedDurationMinutes × 60000 / totalPoints) / speedMultiplier`
milliseconds; for `totalPoints = 11`, `estimatedDurationMinutes = 11`,
`speedMultiplier = 1` the interval is exactly 60000 ms, and after exactly 3
ticks `currentPointIndex = 3` with the third tick persisting
`progressPercent = 30.00`. -/
theorem C7_timer_interval :
    (∀ (s : SchedulerState) (tripId tId : ℕ) (trip : ActiveTrip),
        alookup s.activeTrips tripId = some trip → trip.isAnimating = false →
        alookup (startAnimation s tripId tId).timers tId
          = some ⟨tripId, trip.decodedPoints, trip.currentPointIndex,
              trip.estimatedDuration * 60000 / trip.decodedPoints.length
                / trip.speedMultiplier⟩)
    ∧ (alookup (startAnimation c7State 1 5).timers 5).map Timer.intervalMs = some 60000
    ∧ (alookup (tick (tick (tick (startAnimation c7State 1 5) 5).1 5).1 5).1.activeTrips 1).map
        ActiveTrip.currentPointIndex = some 3
    ∧ (tick (tick (tick (startAnimation c7State 1 5) 5).1 5).1 5).2
        = [StoreCall.updatePosition 1 3 3 3 30 true] := by
  refine ⟨?_, ?_, ?_, ?_⟩
  · intro s tripId tId trip heq hAnim
    rw [startAnimation, heq]
    dsimp only
    rw [if_neg (by rw [hAnim]; exact Bool.false_ne_true)]
    rw [alookup_cons, if_pos rfl]
    simp only [Option.some.injEq, Timer.mk.injEq, true_and]
    rw [calculateTimePerPoint]
    ring_nf
  · have hb : (alookup (startAnimation c7State 1 5).timers 5).map Timer.intervalMs
        = some (calculateTimePerPoint 11 points11.length / 1) := rfl
    rw [hb]
    norm_num [calculateTimePerPoint, points11]
  · rfl
  · have hd : (tick (tick (tick (startAnimation c7State 1 5) 5).1 5).1 5).2
        = [StoreCall.updatePosition 1 3 3 3
            (round2 (((3 : ℕ) : ℚ) / (((11 : ℕ) : ℚ) - 1) * 100)) true] := rfl
    rw [hd]
    norm_num [round2, round_eq]

theorem C7_timer_interval_witness :
    alookup c7State.activeTrips 1 = some c7Trip
    ∧ c7Trip.isAnimating = false
    ∧ alookup (startAnimation c7State 1 5).timers 5
        = some ⟨1, c7Trip.decodedPoints, c7Trip.currentPointIndex,
            c7Trip.estimatedDuration * 60000 / c7Trip.decodedPoints.length
              / c7Trip.speedMultiplier⟩ :=
  ⟨rfl, rfl, C7_timer_interval.1 c7State 1 5 c7Trip rfl rfl⟩
